import Mathlib

/-!
Shallow embedding of the reference-resolution and rewriting engine of the
Deploy-page repository (`.github/scripts/normalize-paths.py`,
`.github/scripts/fix-links.py`, `.github/scripts/fix-static-site.py`,
`.github/scripts/validate-links.py`).

Python strings are modelled as `List Char`; filesystem paths are modelled as
lists of path components (`List (List Char)`), mirroring
`pathlib.PurePosixPath.parts`.  Absolute locations are represented relative to
an abstract absolute site root `absSite`, which corresponds to invoking the
scripts with an absolute site path while the working directory is the site
root (so that `Path.resolve()` of a site-relative path lands under `absSite`).
`Path.resolve()` is modelled without symbolic links.
-/

namespace DeployPage

/-- A Python string. -/
abbrev PyStr := List Char

/-- A filesystem path as a list of components, as in `PurePosixPath.parts`. -/
abbrev FsPath := List PyStr

/-- Convert a Lean string literal into the `List Char` model of Python strings. -/
def chars (s : String) : PyStr := s.toList

/-- Python `s.split('/')`: split a string at every slash (`"".split('/') == ['']`). -/
def pySplitSlash : PyStr → List PyStr
  | [] => [[]]
  | c :: t =>
    if c = '/' then [] :: pySplitSlash t
    else
      match pySplitSlash t with
      | [] => [[c]]
      | s :: r => (c :: s) :: r

/-- `PurePosixPath(s).parts` for a (relative) path string: empty components and
single-dot components disappear, `..` components are kept. -/
def toSegments (s : PyStr) : FsPath :=
  (pySplitSlash s).filter (fun seg => !decide (seg = []) && !decide (seg = ['.']))

/-- `Path(p).name`: the final component (`""` for an empty path). -/
def lastName (f : FsPath) : PyStr := f.getLastD []

/-- The index of the last dot of a string, i.e. Python `name.rfind('.')`
(`none` standing for `-1`). -/
def lastDotIdx : PyStr → Option Nat
  | [] => none
  | c :: t =>
    match lastDotIdx t with
    | some j => some (j + 1)
    | none => if c = '.' then some 0 else none

/-- `Path(name).stem` from pathlib: `i = name.rfind('.')`, then `name[:i]` when
`0 < i < len(name) - 1`, else `name` itself. -/
def pyStem (name : PyStr) : PyStr :=
  match lastDotIdx name with
  | none => name
  | some i => if 0 < i ∧ i < name.length - 1 then name.take i else name

/-- `(base / segs).resolve()` for an absolute `base`: process the components,
letting `..` pop the last component (clamped at the filesystem root). -/
def resolveClamp (base : FsPath) (segs : FsPath) : FsPath :=
  segs.foldl (fun acc seg => if seg = chars ".." then acc.dropLast else acc ++ [seg]) base

/-- `Path(p).relative_to(base)`: succeeds exactly when `base`'s components are a
prefix of `p`'s components (`ValueError`, i.e. `none`, otherwise). -/
def relTo (p base : FsPath) : Option FsPath :=
  if base <+: p then some (p.drop base.length) else none

/-- `str(Path(*segs))` for a relative, already-normalised component list
(`str(Path('.')) == "."`). -/
def renderPath (segs : FsPath) : PyStr :=
  if segs = [] then ['.'] else List.intercalate (chars "/") segs

/-- `fix-links.py` line 32, `ComprehensiveLinkRewriter.is_external`:
the prefixes that mark a link as external or special. -/
def EXTERNAL_FIX : List PyStr :=
  [chars "http://", chars "https://", chars "#", chars "mailto:", chars "tel:",
   chars "javascript:", chars "data:", chars "//"]

/-- `ComprehensiveLinkRewriter.is_external` (`fix-links.py` lines 30-32). -/
def isExternalF (link : PyStr) : Bool :=
  EXTERNAL_FIX.any (fun q => decide (q <+: link))

/-- The query/hash split of `transform_link` (`fix-links.py` lines 55-63):
split at the first `'?'` if any, else at the first `'#'`; the second component
is the separator plus the rest, reattached verbatim at the end. -/
def splitQF (link : PyStr) : PyStr × PyStr :=
  if link.contains '?' then
    (link.takeWhile (fun c => !(c == '?')), link.dropWhile (fun c => !(c == '?')))
  else if link.contains '#' then
    (link.takeWhile (fun c => !(c == '#')), link.dropWhile (fun c => !(c == '#')))
  else (link, [])

/-- `link.split('?')[0].split('#')[0]` (`fix-links.py` line 39). -/
def stripQueryHash (link : PyStr) : PyStr :=
  (link.takeWhile (fun c => !(c == '?'))).takeWhile (fun c => !(c == '#'))

/-- `self.mapping.get(key, key)` (`fix-links.py` line 75); the mapping is the
JSON dictionary with keys and values taken as slash-separated paths. -/
def lookupPath (mapping : List (FsPath × FsPath)) (k : FsPath) : FsPath :=
  match mapping.find? (fun e => decide (e.1 = k)) with
  | some e => e.2
  | none => k

/-- `ComprehensiveLinkRewriter.transform_link` (`fix-links.py` lines 50-81).
`absSite` models `self.site_root`; the two `relative_to` calls sit inside one
`try`, whose bare `except` returns the original link. -/
def transformLink (absSite : FsPath) (mapping : List (FsPath × FsPath))
    (link : PyStr) (oldSrc newSrc : FsPath) : PyStr :=
  if isExternalF link then link
  else if (splitQF link).1.head? = some '/' then link
  else
    match relTo (resolveClamp (absSite ++ oldSrc.dropLast) (toSegments (splitQF link).1)) absSite with
    | none => link
    | some targetRelOld =>
      match relTo (lookupPath mapping targetRelOld) newSrc.dropLast with
      | none => link
      | some segs => renderPath segs ++ (splitQF link).2

/-- `ComprehensiveLinkRewriter.resolve_link_target` (`fix-links.py` lines 34-48):
resolve a link found in `sourceFile` to a site-root-relative target, `none` for
external/absolute/empty links or when the resolved path escapes the site root. -/
def resolveLinkTarget (absSite : FsPath) (link : PyStr) (sourceFile : FsPath) :
    Option FsPath :=
  if isExternalF link then none
  else if stripQueryHash link = [] ∨ (stripQueryHash link).head? = some '/' then none
  else relTo (resolveClamp (absSite ++ sourceFile.dropLast) (toSegments (stripQueryHash link))) absSite

/-- `rglob('*.html')` name test: the file name ends in `.html`. -/
def isHtmlName (name : PyStr) : Bool := decide (chars ".html" <:+ name)

/-- The per-file rule of `calculate_path_mapping` (`normalize-paths.py`
lines 20-27): `index.html` maps to itself, any other page maps to
`parent/stem/index.html`. -/
def newPathFor (f : FsPath) : FsPath :=
  if lastName f = chars "index.html" then f
  else f.dropLast ++ [pyStem (lastName f), chars "index.html"]

/-- `calculate_path_mapping` (`normalize-paths.py` lines 12-31): one entry per
`*.html` file of the site, in traversal order. -/
def calculatePathMapping (files : List FsPath) : List (FsPath × FsPath) :=
  (files.filter (fun f => isHtmlName (lastName f))).map (fun f => (f, newPathFor f))

/-- The two halves of the query/hash split reassemble the original link. -/
theorem splitQF_append (link : PyStr) : (splitQF link).1 ++ (splitQF link).2 = link := by
  unfold splitQF
  split
  · simp
  · split
    · simp
    · simp

/-- The site root used by the concrete rewriting scenarios. -/
def c1Site : FsPath := [chars "site"]

/-- The path mapping computed over the site `{about.html, contact.html, index.html}`. -/
def c1Mapping : List (FsPath × FsPath) :=
  calculatePathMapping [[chars "about.html"], [chars "contact.html"], [chars "index.html"]]

/-- C1: the round-trip invariant `resolve(rewrite(r), d_new) = mapping[resolve(r, d_old)]`
fails on the code.  For the reference `contact.html` in `about.html` (moved to
`about/index.html`), whose resolved target `contact.html` is present in the mapping
with new path `contact/index.html`, `transform_link` returns the reference unchanged
(`Path.relative_to` cannot build `../` paths, and the bare `except` returns the
original link), so resolving the rewritten reference from the new location yields
`about/contact.html`, not the mapping's new path. -/
theorem c1_roundtrip_violation :
    transformLink c1Site c1Mapping (chars "contact.html")
        [chars "about.html"] [chars "about", chars "index.html"] = chars "contact.html" ∧
    resolveLinkTarget c1Site (chars "contact.html") [chars "about.html"] =
        some [chars "contact.html"] ∧
    lookupPath c1Mapping [chars "contact.html"] = [chars "contact", chars "index.html"] ∧
    resolveLinkTarget c1Site (chars "contact.html") [chars "about", chars "index.html"] =
        some [chars "about", chars "contact.html"] ∧
    [chars "about", chars "contact.html"] ≠ [chars "contact", chars "index.html"] := by
  refine ⟨by decide, by decide, by decide, by decide, by decide⟩

/-- C3: depth correctness fails on the code.  A document moved from `about.html`
(depth 0) to `about/index.html` (depth 1) referencing `style.css` should produce
`../style.css` (one `../` segment) or a site-root-relative absolute fallback, but
`transform_link` returns `style.css` unchanged: the rewritten reference contains no
`../` segment, is not absolute, and is not the expected `../style.css`. -/
theorem c3_depth_violation :
    transformLink c1Site c1Mapping (chars "style.css")
        [chars "about.html"] [chars "about", chars "index.html"] = chars "style.css" ∧
    ¬ chars "../" <+: chars "style.css" ∧
    (chars "style.css").head? ≠ some '/' ∧
    chars "style.css" ≠ chars "../style.css" := by
  refine ⟨by decide, by decide, by decide, by decide⟩

/-- C7: query strings and fragments are preserved verbatim.  Every output of
`transform_link` carries the original query-then-fragment suffix of the link
verbatim at its end; in particular rewriting `about.html?x=1#top` from the
document moved from `about.html` to `about/index.html` yields
`index.html?x=1#top`, suffixed with exactly `?x=1#top`. -/
theorem c7_query_fragment_preserved :
    (∀ (absSite : FsPath) (mapping : List (FsPath × FsPath)) (link : PyStr)
        (oldSrc newSrc : FsPath),
      ∃ stem, transformLink absSite mapping link oldSrc newSrc = stem ++ (splitQF link).2) ∧
    transformLink c1Site c1Mapping (chars "about.html?x=1#top")
        [chars "about.html"] [chars "about", chars "index.html"] =
      chars "index.html" ++ chars "?x=1#top" ∧
    (splitQF (chars "about.html?x=1#top")).2 = chars "?x=1#top" := by
  refine ⟨?_, by decide, by decide⟩
  intro absSite mapping link oldSrc newSrc
  unfold transformLink
  split
  · exact ⟨(splitQF link).1, (splitQF_append link).symm⟩
  · split
    · exact ⟨(splitQF link).1, (splitQF_append link).symm⟩
    · split
      · exact ⟨(splitQF link).1, (splitQF_append link).symm⟩
      · split
        · exact ⟨(splitQF link).1, (splitQF_append link).symm⟩
        · exact ⟨_, rfl⟩

/-- `StaticSiteFixer.DIRECTORY_PREFIXES` (`fix-static-site.py` lines 51-56),
in source order. -/
def DIRECTORY_PREFIXES : List PyStr :=
  [chars "services", chars "sectors", chars "category", chars "news"]

/-- The loop body of `detect_directory_structure` over the remaining prefixes:
on a prefix match with a nonempty remainder not starting with a hyphen, return
the pair; otherwise fall through to the next prefix. -/
def detectDirAux : List PyStr → PyStr → Option (PyStr × PyStr)
  | [], _ => none
  | q :: qs, fn =>
    if q <+: fn then
      if fn.drop q.length ≠ [] ∧ (fn.drop q.length).head? ≠ some '-' then
        some (q, fn.drop q.length)
      else detectDirAux qs fn
    else detectDirAux qs fn

/-- `StaticSiteFixer.detect_directory_structure` (`fix-static-site.py`
lines 103-130). -/
def detectDirectoryStructure (filename : PyStr) : Option (PyStr × PyStr) :=
  detectDirAux DIRECTORY_PREFIXES filename

theorem detectDirAux_sound (ps : List PyStr) :
    ∀ (fn p r : PyStr), detectDirAux ps fn = some (p, r) →
      p ∈ ps ∧ fn = p ++ r ∧ r ≠ [] ∧ r.head? ≠ some '-' := by
  induction ps with
  | nil => intro fn p r h; simp [detectDirAux] at h
  | cons q qs ih =>
    intro fn p r h
    unfold detectDirAux at h
    split at h
    · rename_i hpre
      split at h
      · rename_i hrest
        have hinj := Option.some.inj h
        have hq : q = p := congrArg Prod.fst hinj
        have hr : fn.drop q.length = r := congrArg Prod.snd hinj
        obtain ⟨t, ht⟩ := hpre
        have hdrop : fn.drop q.length = t := by
          rw [← ht]; exact List.drop_left q t
        refine ⟨?_, ?_, ?_, ?_⟩
        · rw [← hq]; exact List.mem_cons_self q qs
        · rw [← hq, ← hr, hdrop, ht]
        · rw [← hr]; exact hrest.1
        · rw [← hr]; exact hrest.2
      · obtain ⟨h1, h2⟩ := ih fn p r h
        exact ⟨List.mem_cons_of_mem _ h1, h2⟩
    · obtain ⟨h1, h2⟩ := ih fn p r h
      exact ⟨List.mem_cons_of_mem _ h1, h2⟩

/-- No known directory prefix is a proper prefix of another. -/
theorem directoryPrefixes_nonoverlapping :
    ∀ p ∈ DIRECTORY_PREFIXES, ∀ q ∈ DIRECTORY_PREFIXES, p <+: q → p = q := by decide

/-- C5: `detect_directory_structure` returns a `(prefix, remainder)` pair only
when the filename is that known prefix followed by a nonempty remainder that
does not start with a hyphen; whenever the filename is a known prefix followed
by a hyphen-initial remainder it returns no structure.  In particular
`detect_directory_structure("news-insights")` is `none` and
`detect_directory_structure("newschristmas")` is `("news", "christmas")`. -/
theorem c5_hyphen_guard :
    detectDirectoryStructure (chars "news-insights") = none ∧
    detectDirectoryStructure (chars "newschristmas") = some (chars "news", chars "christmas") ∧
    (∀ fn p r, detectDirectoryStructure fn = some (p, r) →
      p ∈ DIRECTORY_PREFIXES ∧ fn = p ++ r ∧ r ≠ [] ∧ r.head? ≠ some '-') ∧
    (∀ fn p r, p ∈ DIRECTORY_PREFIXES → fn = p ++ r → r.head? = some '-' →
      detectDirectoryStructure fn = none) := by
  refine ⟨by decide, by decide, fun fn p r h => detectDirAux_sound _ fn p r h, ?_⟩
  intro fn p r hp hfn hhead
  cases h : detectDirectoryStructure fn with
  | none => rfl
  | some pr =>
    obtain ⟨p', r'⟩ := pr
    obtain ⟨hp', hfn', hr', hhead'⟩ := detectDirAux_sound _ fn p' r' h
    have h1 : p <+: fn := ⟨r, hfn.symm⟩
    have h2 : p' <+: fn := ⟨r', hfn'.symm⟩
    have heq : p = p' := by
      rcases List.prefix_or_prefix_of_prefix h1 h2 with hc | hc
      · exact directoryPrefixes_nonoverlapping p hp p' hp' hc
      · exact (directoryPrefixes_nonoverlapping p' hp' p hp hc).symm
    subst heq
    have hr : r = r' := by
      have : p ++ r = p ++ r' := hfn.symm.trans hfn'
      exact List.append_cancel_left this
    subst hr
    exact absurd hhead hhead'

/-- C5 witness: the hyphen-guard direction applied at `services-test`, a
hyphenated standalone slug. -/
theorem c5_hyphen_guard_witness :
    detectDirectoryStructure (chars "services-test") = none :=
  c5_hyphen_guard.2.2.2 (chars "services-test") (chars "services") (chars "-test")
    (by decide) (by decide) (by decide)

/-- ASCII model of Python `str.lower()` on one character. -/
def pyLowerChar (c : Char) : Char :=
  if 'A' ≤ c ∧ c ≤ 'Z' then Char.ofNat (c.toNat + 32) else c

/-- ASCII model of Python `str.lower()`. -/
def pyLower (s : PyStr) : PyStr := s.map pyLowerChar

/-- `StaticSiteFixer.SKIP_RESTRUCTURE` (`fix-static-site.py` lines 43-48). -/
def SKIP_RESTRUCTURE : List PyStr :=
  [chars "index.html", chars "404.html", chars "robots.txt", chars "sitemap.xml"]

/-- The file filter of `restructure_files` (`fix-static-site.py` lines 374-379):
an `*.html` file whose lowercased name is not in the skip set and that is not
under `.git` or `.github`. -/
def shouldRestructure (f : FsPath) : Bool :=
  isHtmlName (lastName f) && !decide (pyLower (lastName f) ∈ SKIP_RESTRUCTURE) &&
    !decide (chars ".git" ∈ f) && !decide (chars ".github" ∈ f)

/-- A file tree: a list of `(path, content)` entries with distinct paths. -/
abbrev FileTree (α : Type) := List (FsPath × α)

/-- Read a file's content from the tree (`open` / `read_text`). -/
def lookupFile {α : Type} : FileTree α → FsPath → Option α
  | [], _ => none
  | e :: t, p => if e.1 = p then some e.2 else lookupFile t p

/-- Remove a file from the tree (`Path.unlink`). -/
def eraseKey {α : Type} : FileTree α → FsPath → FileTree α
  | [], _ => []
  | e :: t, p => if e.1 = p then eraseKey t p else e :: eraseKey t p

/-- Write a file, overwriting any existing entry at that path (the overwrite
semantics of `shutil.copy2` / `write_text`). -/
def setFile {α : Type} (t : FileTree α) (p : FsPath) (c : α) : FileTree α :=
  eraseKey t p ++ [(p, c)]

/-- One move of `restructure_files`: `shutil.copy2(html_file, target_file)`
followed by `html_file.unlink()`; a missing source (`IOError`) is caught and
skipped. -/
def doMove {α : Type} (t : FileTree α) (f target : FsPath) : FileTree α :=
  match lookupFile t f with
  | none => t
  | some c => eraseKey (setFile t target c) f

/-- The loop body of `restructure_files` (`fix-static-site.py` lines 388-451):
flattened names detected by `detect_directory_structure` move to
`parent/prefix/rest/index.html`, other pages to `parent/stem/index.html`;
stems `index`/`404` are skipped. -/
def restructureStep {α : Type} (t : FileTree α) (f : FsPath) : FileTree α :=
  match detectDirectoryStructure (pyStem (lastName f)) with
  | some (d, b) => doMove t f (f.dropLast ++ [d, b, chars "index.html"])
  | none =>
    if pyStem (lastName f) = chars "index" ∨ pyStem (lastName f) = chars "404" then t
    else doMove t f (f.dropLast ++ [pyStem (lastName f), chars "index.html"])

/-- The snapshot of files to process, taken before any move
(`fix-static-site.py` lines 374-379). -/
def htmlFilesToProcess {α : Type} (t : FileTree α) : List FsPath :=
  (t.map (fun e => e.1)).filter shouldRestructure

/-- `StaticSiteFixer.restructure_files` (`fix-static-site.py` lines 369-459). -/
def restructureFiles {α : Type} (t : FileTree α) : FileTree α :=
  (htmlFilesToProcess t).foldl restructureStep t

theorem lastName_two (xs : FsPath) (a b : PyStr) : lastName (xs ++ [a, b]) = b := by
  have h : xs ++ [a, b] = (xs ++ [a]) ++ [b] := by simp
  rw [lastName, h, List.getLastD_concat]

theorem lastName_three (xs : FsPath) (a b c : PyStr) : lastName (xs ++ [a, b, c]) = c := by
  have h : xs ++ [a, b, c] = (xs ++ [a, b]) ++ [c] := by simp
  rw [lastName, h, List.getLastD_concat]

theorem shouldRestructure_skipname {g : FsPath}
    (h : pyLower (lastName g) ∈ SKIP_RESTRUCTURE) : shouldRestructure g = false := by
  simp only [shouldRestructure]
  rw [decide_eq_true h]
  simp

theorem shouldRestructure_target2 (xs : FsPath) (a : PyStr) :
    shouldRestructure (xs ++ [a, chars "index.html"]) = false := by
  apply shouldRestructure_skipname
  rw [lastName_two]
  decide

theorem shouldRestructure_target3 (xs : FsPath) (a b : PyStr) :
    shouldRestructure (xs ++ [a, b, chars "index.html"]) = false := by
  apply shouldRestructure_skipname
  rw [lastName_three]
  decide

theorem lastDotIdx_append_html (m : PyStr) :
    lastDotIdx (m ++ chars ".html") = some m.length := by
  induction m with
  | nil => decide
  | cons c t ih => simp [lastDotIdx, ih]

theorem pyStem_append_html (m : PyStr) (hm : m ≠ []) :
    pyStem (m ++ chars ".html") = m := by
  unfold pyStem
  rw [lastDotIdx_append_html]
  have h0 : 0 < m.length := List.length_pos.mpr hm
  have h5 : (chars ".html").length = 5 := rfl
  have hlen : (m ++ chars ".html").length = m.length + 5 := by
    rw [List.length_append, h5]
  show (if 0 < m.length ∧ m.length < (m ++ chars ".html").length - 1 then
      List.take m.length (m ++ chars ".html") else m ++ chars ".html") = m
  rw [if_pos ⟨h0, by omega⟩]
  exact List.take_left m (chars ".html")

theorem shouldRestructure_stem_ne {f : FsPath} (hf : shouldRestructure f = true) :
    ¬(pyStem (lastName f) = chars "index" ∨ pyStem (lastName f) = chars "404") := by
  intro hstem
  simp only [shouldRestructure, Bool.and_eq_true, Bool.not_eq_true'] at hf
  obtain ⟨⟨⟨hHtml, hSkip⟩, _⟩, _⟩ := hf
  have hsuf : chars ".html" <:+ lastName f := of_decide_eq_true hHtml
  obtain ⟨m, hm⟩ := hsuf
  by_cases hmz : m = []
  · subst hmz
    simp only [List.nil_append] at hm
    rcases hstem with h | h
    · rw [← hm] at h; exact absurd h (by decide)
    · rw [← hm] at h; exact absurd h (by decide)
  · have hstem' : pyStem (lastName f) = m := by
      rw [← hm]; exact pyStem_append_html m hmz
    have hskip : pyLower (lastName f) ∈ SKIP_RESTRUCTURE := by
      rcases hstem with h | h
      · rw [← hm, hstem'.symm.trans h]; decide
      · rw [← hm, hstem'.symm.trans h]; decide
    exact absurd hskip (of_decide_eq_false hSkip)

theorem mem_eraseKey {α : Type} {p : FsPath} {e : FsPath × α} :
    ∀ {t : FileTree α}, e ∈ eraseKey t p → e ∈ t ∧ e.1 ≠ p := by
  intro t
  induction t with
  | nil => intro h; simp [eraseKey] at h
  | cons x xs ih =>
    intro h
    unfold eraseKey at h
    split at h
    · obtain ⟨h1, h2⟩ := ih h
      exact ⟨List.mem_cons_of_mem _ h1, h2⟩
    · rename_i hx
      rcases List.mem_cons.mp h with h1 | h1
      · rw [h1]; exact ⟨List.mem_cons_self x xs, hx⟩
      · obtain ⟨h2, h3⟩ := ih h1
        exact ⟨List.mem_cons_of_mem _ h2, h3⟩

theorem mem_setFile {α : Type} {t : FileTree α} {p : FsPath} {c : α} {e : FsPath × α}
    (h : e ∈ setFile t p c) : e = (p, c) ∨ e ∈ t := by
  unfold setFile at h
  rcases List.mem_append.mp h with h1 | h1
  · exact Or.inr (mem_eraseKey h1).1
  · simp only [List.mem_singleton] at h1
    exact Or.inl h1

theorem lookupFile_eq_none {α : Type} {f : FsPath} :
    ∀ {t : FileTree α}, lookupFile t f = none → ∀ e ∈ t, e.1 ≠ f := by
  intro t
  induction t with
  | nil => intro _ e he; simp at he
  | cons x xs ih =>
    intro h e he
    unfold lookupFile at h
    split at h
    · exact absurd h (by simp)
    · rename_i hx
      rcases List.mem_cons.mp he with he1 | he1
      · rw [he1]; exact hx
      · exact ih h e he1

theorem mem_doMove {α : Type} {t : FileTree α} {f target : FsPath} {e : FsPath × α}
    (he : e ∈ doMove t f target) (hp : shouldRestructure e.1 = true)
    (hnt : shouldRestructure target = false) : e ∈ t ∧ e.1 ≠ f := by
  unfold doMove at he
  split at he
  · rename_i hl
    exact ⟨he, lookupFile_eq_none hl e he⟩
  · rename_i c hl
    obtain ⟨h1, h2⟩ := mem_eraseKey he
    rcases mem_setFile h1 with h3 | h3
    · have h4 : e.1 = target := by rw [h3]
      rw [h4, hnt] at hp
      exact absurd hp (by simp)
    · exact ⟨h3, h2⟩

theorem mem_restructureStep {α : Type} {t : FileTree α} {f : FsPath} {e : FsPath × α}
    (hf : shouldRestructure f = true) (he : e ∈ restructureStep t f)
    (hp : shouldRestructure e.1 = true) : e ∈ t ∧ e.1 ≠ f := by
  unfold restructureStep at he
  split at he
  · exact mem_doMove he hp (shouldRestructure_target3 f.dropLast _ _)
  · split at he
    · rename_i hst
      exact absurd hst (shouldRestructure_stem_ne hf)
    · exact mem_doMove he hp (shouldRestructure_target2 f.dropLast _)

theorem mem_restructure_foldl {α : Type} :
    ∀ (hs : List FsPath), (∀ g ∈ hs, shouldRestructure g = true) →
      ∀ (cur : FileTree α) (e : FsPath × α),
        e ∈ hs.foldl restructureStep cur → shouldRestructure e.1 = true →
        e ∈ cur ∧ e.1 ∉ hs := by
  intro hs
  induction hs with
  | nil => intro _ cur e he _; exact ⟨he, by simp⟩
  | cons g rest ih =>
    intro hall cur e he hp
    have hfold : (g :: rest).foldl restructureStep cur =
        rest.foldl restructureStep (restructureStep cur g) := rfl
    rw [hfold] at he
    obtain ⟨h1, h2⟩ :=
      ih (fun x hx => hall x (List.mem_cons_of_mem _ hx)) (restructureStep cur g) e he hp
    obtain ⟨h3, h4⟩ := mem_restructureStep (hall g (List.mem_cons_self g rest)) h1 hp
    refine ⟨h3, fun hc => ?_⟩
    rcases List.mem_cons.mp hc with hc1 | hc1
    · exact h4 hc1
    · exact h2 hc1

/-- C8: the restructuring pass is idempotent.  After one run every remaining
file is excluded by the restructuring filter (it is named `index.html` or is in
the skip set), so a second run finds no file to process, moves nothing, and
returns the tree of the first run unchanged. -/
theorem c8_restructure_idempotent {α : Type} (t : FileTree α) :
    htmlFilesToProcess (restructureFiles t) = [] ∧
    restructureFiles (restructureFiles t) = restructureFiles t := by
  have hnil : htmlFilesToProcess (restructureFiles t) = [] := by
    unfold htmlFilesToProcess
    rw [List.filter_eq_nil_iff]
    intro a ha hp
    obtain ⟨e, he, hea⟩ := List.mem_map.mp ha
    have hall : ∀ g ∈ htmlFilesToProcess t, shouldRestructure g = true := by
      intro g hg
      exact (List.mem_filter.mp hg).2
    obtain ⟨hin, hnotin⟩ :=
      mem_restructure_foldl (htmlFilesToProcess t) hall t e he (by rw [hea]; exact hp)
    apply hnotin
    unfold htmlFilesToProcess
    apply List.mem_filter.mpr
    refine ⟨List.mem_map.mpr ⟨e, hin, rfl⟩, ?_⟩
    rw [hea]
    exact hp
  refine ⟨hnil, ?_⟩
  show (htmlFilesToProcess (restructureFiles t)).foldl restructureStep (restructureFiles t) =
    restructureFiles t
  rw [hnil, List.foldl_nil]

/-- Look up an old path in a computed mapping (`mapping[old]`, `None` when the
key is absent). -/
def mappingFind (mapping : List (FsPath × FsPath)) (k : FsPath) : Option FsPath :=
  (mapping.find? (fun e => decide (e.1 = k))).map (fun e => e.2)

/-- The site used by the collision scenario: `page.html` and `page/index.html`
both map to `page/index.html`. -/
def c2Tree : FileTree PyStr :=
  [([chars "page.html"], chars "A"), ([chars "page", chars "index.html"], chars "B")]

/-- C2 counterexample: two distinct old paths (`page.html` and
`page/index.html`) map to the same new path `page/index.html`, yet
`calculate_path_mapping` returns the colliding mapping as an ordinary result
(it has no failure path), and `restructure_files` then silently overwrites the
content `B` of `page/index.html` with the content `A` of `page.html`. -/
theorem c2_collision_counterexample :
    calculatePathMapping (c2Tree.map (fun e => e.1)) =
      [([chars "page.html"], [chars "page", chars "index.html"]),
       ([chars "page", chars "index.html"], [chars "page", chars "index.html"])] ∧
    [chars "page.html"] ≠ [chars "page", chars "index.html"] ∧
    restructureFiles c2Tree = [([chars "page", chars "index.html"], chars "A")] := by
  refine ⟨by decide, by decide, by decide⟩

/-- C2 amended: the mapping phase performs no collision detection; it always
returns an entry for every HTML file of the input set, colliding ones
included, and the restructuring phase then overwrites the colliding target. -/
theorem c2_no_collision_detection :
    ∀ (files : List FsPath) (f : FsPath), f ∈ files → isHtmlName (lastName f) = true →
      ∃ nw, (f, nw) ∈ calculatePathMapping files := by
  intro files f hmem hhtml
  exact ⟨newPathFor f, List.mem_map.mpr ⟨f, List.mem_filter.mpr ⟨hmem, hhtml⟩, rfl⟩⟩

/-- C2 amended, witness: the colliding file set still yields an entry for
`page.html`. -/
theorem c2_no_collision_detection_witness :
    ∃ nw, ([chars "page.html"], nw) ∈
      calculatePathMapping [[chars "page.html"], [chars "page", chars "index.html"]] :=
  c2_no_collision_detection _ _ (by decide) (by decide)

/-- The file set of the C4 scenario. -/
def c4Files : List FsPath :=
  [[chars "index.html"], [chars "404.html"], [chars "robots.txt"],
   [chars "sitemap.xml"], [chars "about.html"]]

/-- C4 counterexample: the path mapping does not map the whole skip set to
itself.  `404.html` is mapped to `404/index.html`, not to itself, and
`robots.txt` and `sitemap.xml` do not appear in the mapping at all (only
`*.html` files are mapped); only `index.html` maps to itself. -/
theorem c4_skipset_counterexample :
    mappingFind (calculatePathMapping c4Files) [chars "404.html"] =
      some [chars "404", chars "index.html"] ∧
    [chars "404", chars "index.html"] ≠ [chars "404.html"] ∧
    mappingFind (calculatePathMapping c4Files) [chars "robots.txt"] = none ∧
    mappingFind (calculatePathMapping c4Files) [chars "sitemap.xml"] = none ∧
    mappingFind (calculatePathMapping c4Files) [chars "index.html"] =
      some [chars "index.html"] := by
  refine ⟨by decide, by decide, by decide, by decide, by decide⟩

/-- C4 amended: in the mapping built by `calculate_path_mapping`, a file named
`index.html` maps to itself, and every other mapped page maps to a different
path whose final component is `index.html`. -/
theorem c4_mapping_shape :
    ∀ (files : List FsPath) (old nw : FsPath), (old, nw) ∈ calculatePathMapping files →
      (lastName old = chars "index.html" → nw = old) ∧
      (lastName old ≠ chars "index.html" →
        nw ≠ old ∧ lastName nw = chars "index.html") := by
  intro files old nw hmem
  unfold calculatePathMapping at hmem
  obtain ⟨f, hf, hfe⟩ := List.mem_map.mp hmem
  obtain ⟨hfmem, hfhtml⟩ := List.mem_filter.mp hf
  have hfo : f = old := congrArg Prod.fst hfe
  have hfn : newPathFor f = nw := congrArg Prod.snd hfe
  subst hfo
  constructor
  · intro hidx
    rw [← hfn]
    unfold newPathFor
    rw [if_pos hidx]
  · intro hidx
    rw [← hfn]
    unfold newPathFor
    rw [if_neg hidx]
    constructor
    · intro hcontra
      have hlen := congrArg List.length hcontra
      simp only [List.length_append, List.length_dropLast, List.length_cons,
        List.length_nil] at hlen
      omega
    · exact lastName_two ..

/-- C4 amended, witness: applied to the single page `about.html`, whose new
path differs from the old one and ends in `index.html`. -/
theorem c4_mapping_shape_witness :
    [chars "about", chars "index.html"] ≠ [chars "about.html"] ∧
    lastName [chars "about", chars "index.html"] = chars "index.html" :=
  (c4_mapping_shape [[chars "about.html"]] [chars "about.html"]
    [chars "about", chars "index.html"] (by decide)).2 (by decide)

/-- One iteration of `process_site` (`fix-links.py` lines 198-224): reverse-look
up the HTML file among the mapping's values (first match, skipping when absent
or when the found old path is the empty, falsy, string), run the fixing layers,
and write back only when at least one link changed. -/
def processFile (fixFn : PyStr → FsPath → FsPath → PyStr × Nat)
    (mapping : List (FsPath × FsPath)) (t : FileTree PyStr) (f : FsPath) :
    FileTree PyStr :=
  match mapping.find? (fun e => decide (e.2 = f)) with
  | none => t
  | some e =>
    if e.1 = [] then t
    else
      match lookupFile t f with
      | none => t
      | some content =>
        if (fixFn content e.1 f).2 > 0 then setFile t f (fixFn content e.1 f).1 else t

/-- `ComprehensiveLinkRewriter.process_site` (`fix-links.py` lines 191-230),
parameterised by the per-file fixer `fix_html_comprehensive` (lines 172-189),
whose first layer calls the external `lxml` library. -/
def processSite (fixFn : PyStr → FsPath → FsPath → PyStr × Nat)
    (mapping : List (FsPath × FsPath)) (t : FileTree PyStr) : FileTree PyStr :=
  ((t.map (fun e => e.1)).filter (fun f => isHtmlName (lastName f))).foldl
    (processFile fixFn mapping) t

theorem lookupFile_eraseKey_ne {α : Type} {f p : FsPath} (hfp : f ≠ p) :
    ∀ (t : FileTree α), lookupFile (eraseKey t p) f = lookupFile t f := by
  intro t
  induction t with
  | nil => rfl
  | cons x xs ih =>
    simp only [eraseKey]
    split
    · rename_i hx
      rw [ih]
      simp only [lookupFile]
      rw [if_neg (by rw [hx]; exact fun h => hfp h.symm)]
    · simp only [lookupFile, ih]

theorem lookupFile_append_single {α : Type} {f p : FsPath} {c : α} (hfp : f ≠ p) :
    ∀ (l : FileTree α), lookupFile (l ++ [(p, c)]) f = lookupFile l f := by
  intro l
  induction l with
  | nil =>
    show lookupFile [(p, c)] f = none
    unfold lookupFile
    rw [if_neg (fun h => hfp h.symm)]
    rfl
  | cons x xs ih =>
    show lookupFile (x :: (xs ++ [(p, c)])) f = lookupFile (x :: xs) f
    unfold lookupFile
    split
    · rfl
    · exact ih

theorem lookupFile_setFile_ne {α : Type} {t : FileTree α} {f p : FsPath} {c : α}
    (hfp : f ≠ p) : lookupFile (setFile t p c) f = lookupFile t f := by
  unfold setFile
  rw [lookupFile_append_single hfp, lookupFile_eraseKey_ne hfp]

theorem lookupFile_processFile {fixFn : PyStr → FsPath → FsPath → PyStr × Nat}
    {mapping : List (FsPath × FsPath)} {f : FsPath}
    (hf : ∀ e ∈ mapping, e.2 ≠ f) (t : FileTree PyStr) (g : FsPath) :
    lookupFile (processFile fixFn mapping t g) f = lookupFile t f := by
  by_cases hg : g = f
  · subst hg
    have hnone : mapping.find? (fun e => decide (e.2 = g)) = none := by
      apply List.find?_eq_none.mpr
      intro x hx
      simp only [decide_eq_true_eq]
      exact hf x hx
    unfold processFile
    rw [hnone]
  · unfold processFile
    split
    · rfl
    · split
      · rfl
      · split
        · rfl
        · split
          · exact lookupFile_setFile_ne (fun h => hg h.symm)
          · rfl

/-- C9: the link-rewriting pass leaves every file whose path is not among the
new-path values of the loaded mapping byte-for-byte unchanged, whatever the
per-file fixer does: `process_site` writes only to the file being iterated,
and a file with no reverse-mapping hit is skipped by the `continue`. -/
theorem c9_rewrite_frame (fixFn : PyStr → FsPath → FsPath → PyStr × Nat)
    (mapping : List (FsPath × FsPath)) (t : FileTree PyStr) (f : FsPath)
    (hf : ∀ e ∈ mapping, e.2 ≠ f) :
    lookupFile (processSite fixFn mapping t) f = lookupFile t f := by
  unfold processSite
  have hmain : ∀ (gs : List FsPath) (cur : FileTree PyStr),
      lookupFile (gs.foldl (processFile fixFn mapping) cur) f = lookupFile cur f := by
    intro gs
    induction gs with
    | nil => intro cur; rfl
    | cons g rest ih =>
      intro cur
      rw [List.foldl_cons, ih, lookupFile_processFile hf]
  exact hmain _ t

/-- The path mapping of the C9 scenario. -/
def c9Mapping : List (FsPath × FsPath) :=
  [([chars "about.html"], [chars "about", chars "index.html"])]

/-- The restructured tree of the C9 scenario: one mapped page plus one HTML
file that is not a value of the mapping. -/
def c9Tree : FileTree PyStr :=
  [([chars "about", chars "index.html"], chars "OLD"), ([chars "keep.html"], chars "KEEP")]

/-- C9 witness: even under a fixer that rewrites every file it is given,
`keep.html` (not a value of the mapping) keeps its exact content. -/
theorem c9_rewrite_frame_witness :
    lookupFile (processSite (fun _ _ _ => (chars "REWRITTEN", 1)) c9Mapping c9Tree)
      [chars "keep.html"] = lookupFile c9Tree [chars "keep.html"] :=
  c9_rewrite_frame _ c9Mapping c9Tree _ (by decide)

/-- `LinkValidator.is_external` of `validate-links.py` (lines 91-110): the
external URL schemes. -/
def EXTERNAL_VAL_URL : List PyStr :=
  [chars "http://", chars "https://", chars "ftp://", chars "ftps://", chars "//", chars "www."]

/-- `LinkValidator.is_external` (lines 91-110): the special schemes. -/
def EXTERNAL_VAL_SPECIAL : List PyStr :=
  [chars "#", chars "mailto:", chars "tel:", chars "sms:", chars "javascript:",
   chars "about:", chars "data:"]

/-- `LinkValidator.is_external` (lines 91-110): the WordPress substrings. -/
def WP_SUBSTRINGS : List PyStr :=
  [chars "wp-json", chars "wp-admin", chars "wp-content", chars "wp-includes"]

/-- `LinkValidator.is_external` (`validate-links.py` lines 91-110). -/
def isExternalV (link : PyStr) : Bool :=
  EXTERNAL_VAL_URL.any (fun q => decide (q <+: link)) ||
    EXTERNAL_VAL_SPECIAL.any (fun q => decide (q <+: link)) ||
    (WP_SUBSTRINGS.any (fun q => decide (q <:+: link)) &&
      (decide (chars "oembed" <:+: link) || decide (chars "api" <:+: link))) ||
    decide (chars ".php" <:+ link)

/-- Python `str.isspace` characters stripped by `str.strip()` (ASCII). -/
def pyIsSpace (c : Char) : Bool :=
  c == ' ' || c == '\t' || c == '\n' || c == '\r' || c == Char.ofNat 11 || c == Char.ofNat 12

/-- Python `s.strip()`. -/
def pyStrip (s : PyStr) : PyStr :=
  ((s.dropWhile pyIsSpace).reverse.dropWhile pyIsSpace).reverse

/-- `LinkValidator.normalize_link` (`validate-links.py` lines 112-120). -/
def normalizeLinkV (link : PyStr) : PyStr := pyStrip (stripQueryHash link)

/-- `str()` of the absolute resolved target used as cache key
(`validate-links.py` line 146). -/
def renderAbsPath (target : FsPath) : PyStr :=
  '/' :: List.intercalate (chars "/") target

/-- `str(Path(link))` for a stored broken-link string
(`validate-links.py` line 148). -/
def renderPyLink (l : PyStr) : PyStr :=
  (if l.head? = some '/' then ['/'] else []) ++ List.intercalate (chars "/") (toSegments l)

/-- The target computation of `LinkValidator.validate_link`
(`validate-links.py` lines 139-143): absolute links are joined to the site
path, relative links are resolved against the source file's directory. -/
def resolvedTargetV (absSite : FsPath) (source : FsPath) (link : PyStr) : FsPath :=
  if (normalizeLinkV link).head? = some '/' then absSite ++ toSegments (normalizeLinkV link)
  else resolveClamp (absSite ++ source.dropLast) (toSegments (normalizeLinkV link))

/-- `target.exists()` over a filesystem holding exactly the site files: the
target is an existing file, or a directory, i.e. a prefix of an existing
file's absolute path or an ancestor of the site root itself. -/
def pyExists (absSite : FsPath) (tree : List FsPath) (target : FsPath) : Bool :=
  tree.any (fun f => decide (target <+: absSite ++ f)) || decide (target <+: absSite)

/-- `LinkValidator.validate_link` (`validate-links.py` lines 122-160), with the
validator's mutable state passed explicitly: `checked` is the cache of target
keys already seen, `brokenLinks` the raw link strings of records already in
`self.broken`.  Returns the validity verdict and the updated cache. -/
def validateLink (absSite : FsPath) (tree : List FsPath)
    (checked brokenLinks : List PyStr) (link : PyStr) (source : FsPath) :
    Bool × List PyStr :=
  if link = [] then (true, checked)
  else if isExternalV link then (true, checked)
  else if normalizeLinkV link = [] then (true, checked)
  else if renderAbsPath (resolvedTargetV absSite source link) ∈ checked then
    ((brokenLinks.map renderPyLink).any
      (fun b => decide (b = renderAbsPath (resolvedTargetV absSite source link))), checked)
  else
    (pyExists absSite tree (resolvedTargetV absSite source link),
      renderAbsPath (resolvedTargetV absSite source link) :: checked)

/-- The absolute site path of the C6 scenario. -/
def c6Site : FsPath := [chars "site"]

/-- The site files of the C6 scenario: `dir` is a directory containing no
`index.html`. -/
def c6Tree : List FsPath :=
  [[chars "page", chars "index.html"], [chars "style.css"], [chars "dir", chars "notes.txt"]]

/-- C6 counterexample: the reference `../dir` in `page/index.html` resolves to
the directory `dir`, which exists neither as an exact file nor via
`dir/index.html`, yet the validator reports it valid (the code checks only
`target.exists()`, which is true for a bare directory). -/
theorem c6_exists_counterexample :
    resolvedTargetV c6Site [chars "page", chars "index.html"] (chars "../dir") =
      [chars "site", chars "dir"] ∧
    (validateLink c6Site c6Tree [] [] (chars "../dir")
      [chars "page", chars "index.html"]).1 = true ∧
    [chars "dir"] ∉ c6Tree ∧
    [chars "dir", chars "index.html"] ∉ c6Tree := by
  refine ⟨by decide, by decide, by decide, by decide⟩

/-- C6 amended: for a non-external reference whose normalised path is nonempty
and whose resolved target has not been checked before, the validator reports
the reference valid iff the target exists as a file or a directory — i.e. iff
its absolute path is a prefix of some existing file's absolute path (or an
ancestor of the site root); there is no `target/index.html` rule. -/
theorem c6_exists_rule (absSite : FsPath) (tree : List FsPath)
    (checked broken : List PyStr) (link : PyStr) (source : FsPath)
    (h1 : link ≠ []) (h2 : isExternalV link = false)
    (h3 : normalizeLinkV link ≠ [])
    (h4 : renderAbsPath (resolvedTargetV absSite source link) ∉ checked) :
    (validateLink absSite tree checked broken link source).1 = true ↔
      ((∃ f ∈ tree, resolvedTargetV absSite source link <+: absSite ++ f) ∨
        resolvedTargetV absSite source link <+: absSite) := by
  unfold validateLink
  rw [if_neg h1]
  rw [h2]
  simp only [Bool.false_eq_true, if_false]
  rw [if_neg h3, if_neg h4]
  unfold pyExists
  simp [List.any_eq_true]

/-- C6 amended, witness: the first check of `../style.css` from
`page/index.html` is reported valid because the exact file exists. -/
theorem c6_exists_rule_witness :
    (validateLink c6Site c6Tree [] [] (chars "../style.css")
      [chars "page", chars "index.html"]).1 = true :=
  (c6_exists_rule c6Site c6Tree [] [] (chars "../style.css")
    [chars "page", chars "index.html"] (by decide) (by decide) (by decide)
    (by decide)).mpr (by decide)

/-- `make_absolute`'s skip prefixes (`fix-static-site.py` line 214). -/
def SPECIAL_MA : List PyStr :=
  [chars "http://", chars "https://", chars "#", chars "mailto:", chars "tel:",
   chars "data:", chars "//", chars "javascript:"]

/-- The external/special test of `make_absolute`. -/
def isSpecialMA (href : PyStr) : Bool :=
  SPECIAL_MA.any (fun q => decide (q <+: href))

/-- `href.split('/')[-1]`: the last slash-separated segment. -/
def lastSegMA (s : PyStr) : PyStr := (pySplitSlash s).getLastD []

/-- Python `s.endswith('/')`. -/
def endsSlash (s : PyStr) : Bool :=
  match s.getLast? with
  | some c => c == '/'
  | none => false

/-- `href.lstrip('./')`: remove every leading dot or slash character. -/
def lstripDotSlash (s : PyStr) : PyStr :=
  s.dropWhile (fun c => c == '.' || c == '/')

/-- The `while href.startswith('../'): href = href[3:]` loop of `make_absolute`
(`fix-static-site.py` lines 231-233), run with enough fuel: each round removes
three characters, so `s.length` rounds always reach the loop's exit. -/
def stripLeadingDotDots : Nat → PyStr → PyStr
  | 0, s => s
  | n + 1, s => if chars "../" <+: s then stripLeadingDotDots n (s.drop 3) else s

/-- The href after `lstrip('./')` and the `../`-stripping loop. -/
def strippedMA (href : PyStr) : PyStr :=
  stripLeadingDotDots (lstripDotSlash href).length (lstripDotSlash href)

/-- The `if not href.startswith('/'): href = '/' + href` step of
`make_absolute` (`fix-static-site.py` lines 235-237). -/
def absOfMA (href : PyStr) : PyStr :=
  if (strippedMA href).head? = some '/' then strippedMA href else '/' :: strippedMA href

/-- `StaticSiteFixer.make_absolute` (`fix-static-site.py` lines 200-243). -/
def makeAbsolute (href : PyStr) : PyStr :=
  if isSpecialMA href then href
  else if href.head? = some '/' then
    if !endsSlash href && !decide ('.' ∈ lastSegMA href) then href ++ ['/'] else href
  else if href = [] ∨ href = ['.'] then href
  else if !endsSlash (absOfMA href) && !decide ('.' ∈ lastSegMA (absOfMA href)) then
    absOfMA href ++ ['/']
  else absOfMA href

theorem pySplitSlash_ne_nil : ∀ s : PyStr, pySplitSlash s ≠ [] := by
  intro s
  cases s with
  | nil => simp [pySplitSlash]
  | cons c t =>
    simp only [pySplitSlash]
    split
    · simp
    · split <;> simp

theorem lastSegMA_slash_cons (t : PyStr) : lastSegMA ('/' :: t) = lastSegMA t := by
  unfold lastSegMA
  have h : pySplitSlash ('/' :: t) = [] :: pySplitSlash t := by simp [pySplitSlash]
  rw [h, List.getLastD_cons]

theorem noDot_dot_cons {t : PyStr} (h : '.' ∉ lastSegMA ('.' :: t)) :
    '.' ∉ lastSegMA t := by
  obtain ⟨s0, r, heq⟩ : ∃ s0 r, pySplitSlash t = s0 :: r := by
    cases hp : pySplitSlash t with
    | nil => exact absurd hp (pySplitSlash_ne_nil t)
    | cons a b => exact ⟨a, b, rfl⟩
  have hcons : pySplitSlash ('.' :: t) = ('.' :: s0) :: r := by
    simp [pySplitSlash, heq]
  unfold lastSegMA at h ⊢
  rw [hcons] at h
  rw [heq]
  cases r with
  | nil =>
    exfalso
    apply h
    rw [List.getLastD_cons, List.getLastD_nil]
    exact List.mem_cons_self '.' s0
  | cons y ys =>
    rw [List.getLastD_cons, List.getLastD_cons] at h
    rw [List.getLastD_cons, List.getLastD_cons]
    exact h

theorem noDot_lstrip : ∀ s : PyStr, '.' ∉ lastSegMA s → '.' ∉ lastSegMA (lstripDotSlash s) := by
  intro s
  induction s with
  | nil => intro h; exact h
  | cons c t ih =>
    intro h
    unfold lstripDotSlash at ih ⊢
    rw [List.dropWhile_cons]
    split
    · rename_i hpc
      apply ih
      simp only [Bool.or_eq_true, beq_iff_eq] at hpc
      rcases hpc with h1 | h1
      · rw [h1] at h; exact noDot_dot_cons h
      · rw [h1, lastSegMA_slash_cons] at h; exact h
    · exact h

theorem stripLeadingDotDots_eq_self (n : Nat) (s : PyStr)
    (h : ¬chars "../" <+: s) : stripLeadingDotDots n s = s := by
  cases n with
  | zero => rfl
  | succ m => unfold stripLeadingDotDots; rw [if_neg h]

theorem head_lstrip : ∀ (href : PyStr) (c : Char),
    (lstripDotSlash href).head? = some c → (c == '.' || c == '/') = false := by
  intro href
  induction href with
  | nil => intro c h; simp [lstripDotSlash] at h
  | cons x t ih =>
    intro c h
    unfold lstripDotSlash at ih h
    rw [List.dropWhile_cons] at h
    split at h
    · exact ih c h
    · rename_i hpx
      have hxc : x = c := Option.some.inj h
      rw [← hxc]
      simpa using hpx

theorem strippedMA_eq (href : PyStr) : strippedMA href = lstripDotSlash href := by
  unfold strippedMA
  apply stripLeadingDotDots_eq_self
  intro hpre
  obtain ⟨t2, ht⟩ := hpre
  have hh : (lstripDotSlash href).head? = some '.' := by rw [← ht]; rfl
  have hc := head_lstrip href '.' hh
  simp at hc

theorem absOfMA_head (href : PyStr) : (absOfMA href).head? = some '/' := by
  unfold absOfMA
  split
  · rename_i hh; exact hh
  · rfl

theorem lastSegMA_absOfMA (href : PyStr) :
    lastSegMA (absOfMA href) = lastSegMA (strippedMA href) := by
  unfold absOfMA
  split
  · rfl
  · exact lastSegMA_slash_cons _

theorem endsSlash_concat (l : PyStr) : endsSlash (l ++ ['/']) = true := by
  unfold endsSlash
  rw [List.getLast?_concat]
  rfl

theorem head?_append_stable {l : PyStr} {c : Char} (h : l.head? = some c) (d : PyStr) :
    (l ++ d).head? = some c := by
  cases l with
  | nil => simp at h
  | cons x t => simpa using h

/-- C10: for every href that is nonempty, is not `"."`, and starts with none of
the special prefixes, `make_absolute` returns a string starting with `/`, and
when the last slash-separated segment of the href contains no dot the result
also ends with `/`. -/
theorem c10_make_absolute (href : PyStr)
    (h1 : href ≠ []) (h2 : href ≠ ['.']) (h3 : isSpecialMA href = false) :
    (makeAbsolute href).head? = some '/' ∧
    ('.' ∉ lastSegMA href → endsSlash (makeAbsolute href) = true) := by
  unfold makeAbsolute
  simp only [h3, Bool.false_eq_true, if_false]
  by_cases habs : href.head? = some '/'
  · rw [if_pos habs]
    constructor
    · split
      · exact head?_append_stable habs _
      · exact habs
    · intro hnd
      split
      · exact endsSlash_concat href
      · rename_i hcond
        have hdec : decide ('.' ∈ lastSegMA href) = false := decide_eq_false hnd
        simp [hdec] at hcond
        exact hcond
  · rw [if_neg habs, if_neg (fun hc => hc.elim h1 h2)]
    constructor
    · split
      · exact head?_append_stable (absOfMA_head href) _
      · exact absOfMA_head href
    · intro hnd
      have hnd2 : '.' ∉ lastSegMA (absOfMA href) := by
        rw [lastSegMA_absOfMA, strippedMA_eq]
        exact noDot_lstrip href hnd
      split
      · exact endsSlash_concat _
      · rename_i hcond
        have hdec : decide ('.' ∈ lastSegMA (absOfMA href)) = false := decide_eq_false hnd2
        simp [hdec] at hcond
        exact hcond

/-- C10 witness: `make_absolute("services")` starts with `/` and, since the
last segment `services` contains no dot, ends with `/`. -/
theorem c10_make_absolute_witness :
    (makeAbsolute (chars "services")).head? = some '/' ∧
    endsSlash (makeAbsolute (chars "services")) = true := by
  have h := c10_make_absolute (chars "services") (by decide) (by decide) (by decide)
  exact ⟨h.1, h.2 (by decide)⟩

example : makeAbsolute (chars "services") = chars "/services/" := by decide

example : makeAbsolute (chars "../sectors/cafes") = chars "/sectors/cafes/" := by decide

example : makeAbsolute (chars "./services/booking.html") = chars "/services/booking.html" := by
  decide

example : toSegments (chars "a//b/./c") = [chars "a", chars "b", chars "c"] := by decide

example : pyStem (chars "about.html") = chars "about" := by decide

example : pyStem (chars ".html") = chars ".html" := by decide

example :
    calculatePathMapping [[chars "index.html"], [chars "about.html"]] =
      [([chars "index.html"], [chars "index.html"]),
       ([chars "about.html"], [chars "about", chars "index.html"])] := by decide

end DeployPage
